import Mathlib

/-!
Verification of the update-resolution and selective-extraction engine of a
WoW add-on updater written in Go.  The Go sources are shallowly embedded:
strings become `List Char`, time stamps become `Int`, fallible functions
return `Except`, and the filesystem side effects of extraction are recorded
as an explicit event trace with an environment deciding which calls fail.
Each definition mirrors one Go function (named in its doc comment).
-/

namespace Wau

/-- Go strings are modelled as lists of characters. -/
abbrev Str := List Char

/-- Conversion helper for writing concrete `Str` values from literals. -/
def str (s : String) : Str := s.data

/-- Go `strings.HasPrefix(s, pre)`: `strHasPref pre s` is true when `s`
starts with `pre`. -/
def strHasPref : Str → Str → Bool
  | [], _ => true
  | _ :: _, [] => false
  | p :: ps, c :: cs => p == c && strHasPref ps cs

/-- Unanchored substring search: `strContains pat s` is true when `pat`
occurs contiguously somewhere in `s`.  This is what Go's
`regexp.MatchString` computes for a regex that is an alternation of
literal strings. -/
def strContains (pat : Str) : Str → Bool
  | [] => pat == []
  | c :: rest => strHasPref pat (c :: rest) || strContains pat rest

/-- Go `time.Time` values; only their ordering matters to the program, so
they are modelled as integers with `Before` as `<` and the zero value
`time.Time\x7b\x7d` as `0`. -/
abbrev GoTime := Int

/-- Go `type GhAssetType uint8` (src/unnamed/part_004).  No arithmetic is
ever performed on it, so `Nat` is a faithful carrier. -/
abbrev GhAssetType := Nat

/-- `GhRelease GhAssetType = iota` (value 0). -/
def GhRelease : GhAssetType := 0

/-- `GhTag` (value 1). -/
def GhTag : GhAssetType := 1

/-- `GhEnd` (value 2), always the last variant; validation rejects
`RelType >= GhEnd`. -/
def GhEnd : GhAssetType := 2

/-- Go struct `downloadAsset` (src/addon.go). -/
structure downloadAsset where
  Name : Str
  Size : Int
  DownloadUrl : Str
  ContentType : Str
  UpdatedAt : GoTime
  RefSha : Str
  Version : Str
  RelType : GhAssetType
deriving DecidableEq, Repr

/-- Go struct `AddonUpdateInfo` (src/unnamed/part_011): the persisted
per-add-on update state. -/
structure AddonUpdateInfo where
  Version : Str
  UpdatedOn : GoTime
  RefSha : Str
  ExtractedDirs : List Str
deriving DecidableEq, Repr

/-- The fields of Go struct `Addon` (src/addon.go) that the verified
functions read: configuration, derived dir lists, the skip flag, and the
embedded `AddonUpdateInfo`.  `cacheDirName` is `some n` when
`a.cacheDir` is a non-nil `os.Root` whose `Name()` is `n`. -/
structure Addon where
  Name : Str
  RelType : GhAssetType
  skip : Bool
  excludeDirs : List Str
  includeDirs : List Str
  projName : Str
  shortName : Str
  info : AddonUpdateInfo
  cacheDirName : Option Str
deriving DecidableEq, Repr

/-- Go `(*Addon).hasUpdate` (src/addon.go lines 97-100):
`(asset.RelType == GhRelease && a.UpdatedOn.Before(asset.UpdatedAt)) ||
(asset.RelType == GhTag && a.RefSha != asset.RefSha)`. -/
def hasUpdate (a : Addon) (asset : downloadAsset) : Bool :=
  (asset.RelType == GhRelease && decide (a.info.UpdatedOn < asset.UpdatedAt)) ||
  (asset.RelType == GhTag && a.info.RefSha != asset.RefSha)

/-- Go `skipUnzip` (src/addon.go lines 201-217).  The two sequential
`for` loops returning early are expressed with `List.any`: the first
matching exclude prefix returns true, else the first matching include
prefix returns false, else the result is `len(addon.includeDirs) != 0`. -/
def skipUnzip (addon : Addon) (filename : Str) : Bool :=
  if addon.excludeDirs.any (fun exclude => strHasPref exclude filename) then
    true
  else if addon.includeDirs.any (fun incl => strHasPref incl filename) then
    false
  else
    addon.includeDirs.length != 0

/-- The per-directory normalization in `(*AddonManagerCfg).validate`
(src/unnamed/part_011 lines 135-137) and in
`(*AddonManager).initializeAddon` (src/addon_manager.go lines 95-98): if
the last byte is not a slash, append one.  The Go code indexes
`dir[len(dir)-1]` and so is only defined for non-empty strings; validation
rejects empty directory entries before this point. -/
def normalizeDir (dir : Str) : Str :=
  if dir.getLast? = some '/' then dir else dir ++ ['/']

/-- Go struct `releaseMetadata` (src/addon.go). -/
structure releaseMetadata where
  Flavor : Str
  Interface : Int
deriving DecidableEq, Repr

/-- Go struct `release` (src/addon.go): one entry of the optional
`release.json` manifest. -/
structure release where
  Version : Str
  Filename : Str
  Metadata : List releaseMetadata
deriving DecidableEq, Repr

/-- Go struct `releaseInfo` (src/addon.go): the parsed manifest.  When the
release carries no `release.json` asset, `getTaggedRelease` passes the
zero value (empty `Releases`) to `findTaggedRel`. -/
structure releaseInfo where
  Releases : List release
deriving DecidableEq, Repr

/-- Go struct `ghTaggedRel` (src/addon.go): the latest-release document;
`Assets` is the candidate pool. -/
structure ghTaggedRel where
  TagName : Str
  Assets : List downloadAsset
deriving DecidableEq, Repr

/-- The regex `classic|bc|wrath|cata` compiled in `findTaggedRel`
(src/addon.go line 293).  It is an alternation of literals with no
case-folding flag, so `MatchString` is case-sensitive substring search. -/
def classicFlavorsMatch (name : Str) : Bool :=
  strContains (str "classic") name || strContains (str "bc") name ||
  strContains (str "wrath") name || strContains (str "cata") name

/-- The closure `isMainline` in `findTaggedRel` (src/addon.go line 294):
`m.Flavor == "mainline"`. -/
def isMainline (m : releaseMetadata) : Bool := m.Flavor == str "mainline"

/-- The initial `isReleaseAsset` closure in `findTaggedRel`
(src/addon.go lines 296-298), used when no manifest entry is mainline:
zip content type and no classic-flavor substring in the name. -/
def isFallbackAsset (a : downloadAsset) : Bool :=
  a.ContentType == str "application/zip" && !classicFlavorsMatch a.Name

/-- The replacement `isReleaseAsset` closure installed by the manifest
scan in `findTaggedRel` (src/addon.go lines 303-305): zip content type
and name equal to the mainline manifest entry's filename. -/
def isManifestAsset (filename : Str) (a : downloadAsset) : Bool :=
  a.ContentType == str "application/zip" && a.Name == filename

/-- Go `(*Addon).findTaggedRel` (src/addon.go lines 291-322).  The Go loop
over `addonReleases.Releases` with `break` selects the first entry whose
metadata contains flavor `mainline` (`List.find?`), replacing the asset
predicate and the version label; `slices.IndexFunc` then selects the first
asset of the pool satisfying whichever predicate is active. -/
def findTaggedRel (ghRelease : ghTaggedRel) (addonReleases : releaseInfo) :
    Except Str downloadAsset :=
  let chosen :=
    match addonReleases.Releases.find? (fun rel => rel.Metadata.any isMainline) with
    | some rel => (isManifestAsset rel.Filename, rel.Version)
    | none => (isFallbackAsset, ghRelease.TagName)
  match ghRelease.Assets.find? chosen.1 with
  | none => .error (str "no matching asset found from release manifest")
  | some asset => .ok { asset with RelType := GhRelease, Version := chosen.2 }

/-- Go struct `ghTaggedRef` (src/addon.go): one entry of the tag-refs
list; `objectSha` is the nested `Object.Sha` field. -/
structure ghTaggedRef where
  Ref : Str
  objectSha : Str
deriving DecidableEq, Repr

/-- The trailing path segment of `s`: everything after the last `'/'`, or
all of `s` when it has none.  Models Go's
`s[strings.LastIndexByte(s, '/')+1:]` (the absent case gives index -1,
hence the whole string). -/
def afterLastSlash (s : Str) : Str :=
  ((s.reverse.takeWhile (fun c => c != '/')).reverse)

/-- Go `(*Addon).findTaggedRef` (src/addon.go lines 343-365): an empty
refs list is an error; otherwise the last entry is turned into a
synthetic asset whose name and version are the trailing ref segment plus
".zip", whose download URL is built from the add-on name and the full
ref, and whose `RefSha` is the full ref string. -/
def findTaggedRef (a : Addon) (ghRefs : List ghTaggedRef) :
    Except Str downloadAsset :=
  match ghRefs.getLast? with
  | none => .error (str "did not find valid ref for " ++ a.Name)
  | some ref =>
    let name := afterLastSlash ref.Ref ++ str ".zip"
    .ok { Name := name
          Size := 0
          DownloadUrl := str "https://github.com/" ++ a.Name ++ str "/archive/"
            ++ ref.Ref ++ str ".zip"
          ContentType := str "application/zip"
          UpdatedAt := 0
          RefSha := ref.Ref
          Version := name
          RelType := GhTag }

/-- Filesystem side effects of extraction, recorded as an event trace:
`os.RemoveAll`, `os.MkdirAll`, and the per-file create-and-write done by
the `unzipFile` closure. -/
inductive FsEvent where
  | removeAll (dir : Str)
  | mkdirAll (path : Str)
  | writeFile (path : Str)
deriving DecidableEq, Repr

/-- Whether an event is a recursive delete of a stale directory. -/
def FsEvent.isRemove : FsEvent → Bool
  | .removeAll _ => true
  | _ => false

/-- The environment decides which filesystem calls fail, keyed by the
argument the Go code passes them. -/
structure FsEnv where
  removeFails : Str → Bool
  mkdirFails : Str → Bool
  writeFails : Str → Bool

/-- One entry of the zip archive: Go's `*zip.File`, reduced to the two
attributes `extractZip` reads, its `Name` and whether its mode marks a
directory. -/
structure zipFile where
  Name : Str
  isDir : Bool
deriving DecidableEq, Repr

/-- The downloaded buffer as seen by `zip.NewReader`: either not a zip
archive at all, or a list of entries. -/
inductive ZipData where
  | invalid
  | archive (files : List zipFile)
deriving DecidableEq, Repr

/-- The `addonsDir` computation at src/addon.go lines 112-115: `"./"`,
or `cacheDir.Name() + "/addons/"` when a cache root is configured. -/
def mkAddonsDir (a : Addon) : Str :=
  match a.cacheDirName with
  | none => str "./"
  | some n => n ++ str "/addons/"

/-- The delete-previously-extracted-dirs loop of `extractZip`
(src/addon.go lines 117-122): each `os.RemoveAll(dir)` call is recorded;
the first failing call stops the loop.  Returns the events and whether a
deletion failed. -/
def removeOldDirs (env : FsEnv) : List Str → List FsEvent × Bool
  | [] => ([], false)
  | d :: ds =>
    if env.removeFails d then ([.removeAll d], true)
    else
      let r := removeOldDirs env ds
      (.removeAll d :: r.1, r.2)

/-- Result of the directory-creation pass of `extractZip`. -/
structure DirPhase where
  dirs : List Str
  extractFiles : List zipFile
  events : List FsEvent
  failed : Bool
deriving Repr

/-- The first entry walk of `extractZip` (src/addon.go lines 126-147):
skip filtered entries, create directories (recording each `os.MkdirAll`
call and stopping at the first failure), collect file entries for the
second pass, and rebuild `ExtractedDirs`.  Go tracks the already-seen
top-level names in the `topLevelDirs` map; since `ExtractedDirs` was just
truncated to empty, that map always holds exactly the members of the
accumulator `dirs`, so membership in `dirs` models the map lookup.  The
parent directory is `file.Name[:strings.IndexByte(file.Name, '/')]`; zip
directory entries always contain a `'/'` (Go would panic otherwise), and
`takeWhile` computes the same prefix for such names. -/
def createDirs (a : Addon) (env : FsEnv) (addonsDir : Str)
    (dirs : List Str) : List zipFile → DirPhase
  | [] => ⟨dirs, [], [], false⟩
  | f :: fs =>
    if skipUnzip a f.Name then createDirs a env addonsDir dirs fs
    else if f.isDir then
      let parentDir := f.Name.takeWhile (fun c => c != '/')
      let dirs' := if dirs.contains parentDir then dirs else dirs ++ [parentDir]
      if env.mkdirFails (addonsDir ++ f.Name) then
        ⟨dirs', [], [FsEvent.mkdirAll (addonsDir ++ f.Name)], true⟩
      else
        let r := createDirs a env addonsDir dirs' fs
        ⟨r.dirs, r.extractFiles, FsEvent.mkdirAll (addonsDir ++ f.Name) :: r.events, r.failed⟩
    else
      let r := createDirs a env addonsDir dirs fs
      ⟨r.dirs, f :: r.extractFiles, r.events, r.failed⟩

/-- The file-extraction pass of `extractZip` (src/addon.go lines
149-196).  The writes are dispatched to the disk worker pool and awaited
as a batch; the model serializes them in dispatch order.  A failing write
sets the shared error flag and queued-but-not-yet-started writes are then
skipped, which the serialized model renders as stopping after the first
failure. -/
def writeFiles (env : FsEnv) (addonsDir : Str) : List zipFile → List FsEvent × Bool
  | [] => ([], false)
  | f :: fs =>
    if env.writeFails (addonsDir ++ f.Name) then
      ([FsEvent.writeFile (addonsDir ++ f.Name)], true)
    else
      let r := writeFiles env addonsDir fs
      (FsEvent.writeFile (addonsDir ++ f.Name) :: r.1, r.2)

/-- Outcome of `extractZip`: the error (if any), the add-on's
`AddonUpdateInfo` after the call (only `ExtractedDirs` is touched here),
and the filesystem event trace. -/
structure ExtractResult where
  err : Option Str
  info : AddonUpdateInfo
  events : List FsEvent
deriving Repr

/-- Go `(*Addon).extractZip` (src/addon.go lines 102-198): parse the
buffer as a zip (failure before any filesystem call), delete previously
extracted dirs (aborting on the first failure, before touching
`ExtractedDirs`), truncate `ExtractedDirs`, create directories while
rebuilding it, then write files. -/
def extractZip (a : Addon) (env : FsEnv) (data : ZipData) : ExtractResult :=
  match data with
  | .invalid => ⟨some (str "addon update not zip format"), a.info, []⟩
  | .archive files =>
    let addonsDir := mkAddonsDir a
    let rem := removeOldDirs env a.info.ExtractedDirs
    if rem.2 then
      ⟨some (str "error removing previously installed addon dir"), a.info, rem.1⟩
    else
      let cd := createDirs a env addonsDir [] files
      if cd.failed then
        ⟨some (str "error creating dir"),
         { a.info with ExtractedDirs := cd.dirs }, rem.1 ++ cd.events⟩
      else
        let wr := writeFiles env addonsDir cd.extractFiles
        ⟨if wr.2 then some (str "error unzipping archive") else none,
         { a.info with ExtractedDirs := cd.dirs }, rem.1 ++ cd.events ++ wr.1⟩

/-- Results of the collaborators `update` drives, injected as data: the
resolver outcome, whether `downloadZip` succeeds, the filesystem
environment, and the downloaded buffer's zip parse. -/
structure UpdateEnv where
  checkUpdate : Except Str downloadAsset
  downloadOk : Bool
  fs : FsEnv
  zipData : ZipData

/-- Outcome of one `update` run: the status error, the add-on's
`AddonUpdateInfo` afterwards, whether the download and extraction steps
were entered, and the filesystem trace. -/
structure UpdateResult where
  err : Option Str
  info : AddonUpdateInfo
  downloaded : Bool
  extracted : Bool
  events : List FsEvent
deriving Repr

/-- Go `(*Addon).update` (src/addon.go lines 50-95): resolve, compare,
honor `skip`, download, extract, and only then store the asset's
version, timestamp and ref sha into the update info.  `ExtractedDirs` is
whatever `extractZip` left behind. -/
def update (a : Addon) (env : UpdateEnv) : UpdateResult :=
  match env.checkUpdate with
  | .error e =>
    ⟨some (str "could not find update data: " ++ e), a.info, false, false, []⟩
  | .ok asset =>
    if !hasUpdate a asset then ⟨none, a.info, false, false, []⟩
    else if a.skip then ⟨none, a.info, false, false, []⟩
    else if !env.downloadOk then
      ⟨some (str "unable to download update"), a.info, true, false, []⟩
    else
      let ex := extractZip a env.fs env.zipData
      match ex.err with
      | some e => ⟨some (str "error extracting update: " ++ e), ex.info, true, true, ex.events⟩
      | none =>
        ⟨none,
         { Version := asset.Version, UpdatedOn := asset.UpdatedAt,
           RefSha := asset.RefSha, ExtractedDirs := ex.info.ExtractedDirs },
         true, true, ex.events⟩

/-- Go struct `AddonCfg` (src/unnamed/part_011), restricted to the fields
`validate` and `load` read. -/
structure AddonCfg where
  NameCfg : Str
  Dirs : List Str
  RelType : GhAssetType
deriving DecidableEq, Repr

/-- The leading-dash strip in `(*AddonManagerCfg).validate`
(src/unnamed/part_011 lines 104-108): `if len(name) > 0 && name[0] == '-'
\x7b name = name[1:] \x7d`. -/
def stripDash : Str → Str
  | '-' :: rest => rest
  | n => n

/-- Go `strings.TrimSpace`: drop whitespace from both ends. -/
def trimSpace (s : Str) : Str :=
  ((s.dropWhile Char.isWhitespace).reverse.dropWhile Char.isWhitespace).reverse

/-- Go `strings.IndexRune(name, '/')`: first index of a slash, or -1. -/
def indexOfSlash (name : Str) : Int :=
  match name.findIdx? (fun c => c = '/') with
  | some i => (i : Int)
  | none => -1

/-- The name checks of `validate` (src/unnamed/part_011 lines 115-122),
applied to the dash-stripped name: the slash must not be first or last or
absent, the slash count must be exactly one, and the trimmed name must
not be empty or a bare slash. -/
def nameErrs (name : Str) : Bool :=
  let idx := indexOfSlash name
  (idx == 0 || idx == (name.length : Int) - 1 || name.count '/' != 1) ||
  (let nm := trimSpace name
   nm == [] || nm == ['/'])

/-- The per-directory check of `validate` (src/unnamed/part_011 lines
129-133): a directory entry whose trimmed form is empty or a bare dash is
an error (and stops the dir loop). -/
def badDir (dir : Str) : Bool :=
  let d := trimSpace dir
  d == [] || d == ['-']

/-- Whether the dir loop of `validate` records an error: the loop breaks
at the first bad entry, so an error is recorded iff some entry is bad. -/
def dirErrs (dirs : List Str) : Bool := dirs.any badDir

/-- All error conditions `validate` records for one add-on entry, given
the dash-stripped names already `seen` (the `duplicateAddons` map):
duplicate name, misformatted name, unknown release type, bad dir. -/
def addonErrs (seen : List Str) (addon : AddonCfg) : Bool :=
  let name := stripDash addon.NameCfg
  seen.contains name || nameErrs name ||
  decide (GhEnd ≤ addon.RelType) || dirErrs addon.Dirs

/-- The validation loop of `(*AddonManagerCfg).validate`
(src/unnamed/part_011 lines 97-154): errors are accumulated across all
add-ons and the function fails iff any add-on recorded one.  Duplicate
detection keys the `duplicateAddons` map by the dash-stripped name. -/
def validateErrs (seen : List Str) : List AddonCfg → Bool
  | [] => false
  | addon :: rest =>
    addonErrs seen addon || validateErrs (stripDash addon.NameCfg :: seen) rest

/-- The per-add-on data `(*AddonManagerCfg).load` builds
(src/unnamed/part_011 lines 180-205).  `updateInfoKey` is the key of the
`cfg.UpdateInfo[addon.Name]` lookup that becomes the add-on's
`AddonUpdateInfo` reference (`validate` guarantees an entry exists under
that key). -/
structure LoadedAddon where
  Name : Str
  skip : Bool
  projName : Str
  shortName : Str
  includeDirs : List Str
  excludeDirs : List Str
  updateInfoKey : Str
deriving DecidableEq, Repr

/-- The dir split in `load` (src/unnamed/part_011 lines 181-192): entries
are written into one array, includes from the front in encounter order
and excludes from the back, and the exclude segment is then reversed —
the net effect is an order-preserving partition, with the leading dash
dropped from excludes.  `includeList` is the include half. -/
def includeList (dirs : List Str) : List Str :=
  dirs.filter (fun d => d.head? != some '-')

/-- The exclude half of the `load` dir split, with the dash stripped
(`dir[1:]`). -/
def excludeList (dirs : List Str) : List Str :=
  (dirs.filter (fun d => d.head? == some '-')).map (fun d => d.drop 1)

/-- One add-on of `(*AddonManagerCfg).load` (src/unnamed/part_011 lines
180-205), recomputed from the raw config record: `validate` has already
stored the dash-stripped name in `addon.Name` and normalized
`addon.Dirs` in place, so `load`'s reads of those fields equal
`stripDash`/`normalizeDir` of the raw values.  On the success path the
stripped name contains a slash, located with `strings.IndexRune`. -/
def loadAddon (addon : AddonCfg) : LoadedAddon :=
  let name := stripDash addon.NameCfg
  let dirs := addon.Dirs.map normalizeDir
  let idx := (name.findIdx? (fun c => c = '/')).getD 0
  { Name := name
    skip := addon.NameCfg.head? == some '-'
    projName := name.take (idx + 1)
    shortName := name.drop (idx + 1)
    includeDirs := includeList dirs
    excludeDirs := excludeList dirs
    updateInfoKey := name }

/-- `LoadAddonManagerCfg` for a list of add-on entries
(src/unnamed/part_011 lines 51-65): `validate` then `load`; any recorded
validation error aborts before `load`. -/
def loadCfg (addons : List AddonCfg) : Except Unit (List LoadedAddon) :=
  if validateErrs [] addons then .error ()
  else .ok (addons.map loadAddon)

/-! Helper lemmas shared by the claim theorems. -/

/-- `List.find?` returns the unique element satisfying the predicate. -/
theorem find?_eq_some_of_unique {α : Type} (p : α → Bool) :
    ∀ (l : List α) (a : α), a ∈ l → p a = true →
      (∀ b ∈ l, p b = true → b = a) → l.find? p = some a
  | [], a, ha, _, _ => absurd ha (List.not_mem_nil a)
  | x :: xs, a, ha, hp, huniq => by
    rw [List.find?_cons]
    by_cases hx : p x = true
    · have hxa : x = a := huniq x (List.mem_cons_self x xs) hx
      subst hxa
      simp [hp]
    · have hxa : a ∈ xs := by
        rcases List.mem_cons.mp ha with h | h
        · exact absurd (h ▸ hp) hx
        · exact h
      simp only [Bool.not_eq_true] at hx
      simp only [hx]
      exact find?_eq_some_of_unique p xs a hxa hp
        (fun b hb hpb => huniq b (List.mem_cons_of_mem x hb) hpb)

/-- `List.find?` returns the positionally first element satisfying the
predicate. -/
theorem find?_eq_get_of_first {α : Type} (p : α → Bool) :
    ∀ (l : List α) (i : Nat) (hi : i < l.length),
      p (l.get ⟨i, hi⟩) = true →
      (∀ j (hj : j < i), p (l.get ⟨j, Nat.lt_trans hj hi⟩) = false) →
      l.find? p = some (l.get ⟨i, hi⟩)
  | [], i, hi, _, _ => by simp at hi
  | x :: xs, 0, hi, hp, _ => by
    rw [List.find?_cons]
    have hpx : p x = true := hp
    simp [hpx]
  | x :: xs, i + 1, hi, hp, hmin => by
    have hx : p x = false := hmin 0 (Nat.succ_pos i)
    rw [List.find?_cons]
    simp only [hx]
    exact find?_eq_get_of_first p xs i (Nat.lt_of_succ_lt_succ hi) hp
      (fun j hj => hmin (j + 1) (Nat.succ_lt_succ hj))

/-- C4: update detection reports an update exactly when the asset is of
release kind with a strictly later timestamp, or of tag kind with a
different ref sha; equal timestamps or identical shas report none. -/
theorem C4_update_detection :
    (∀ (a : Addon) (asset : downloadAsset),
      hasUpdate a asset = true ↔
        (asset.RelType = GhRelease ∧ a.info.UpdatedOn < asset.UpdatedAt) ∨
        (asset.RelType = GhTag ∧ a.info.RefSha ≠ asset.RefSha)) ∧
    (∀ (a : Addon) (asset : downloadAsset), asset.RelType = GhRelease →
      asset.UpdatedAt = a.info.UpdatedOn → hasUpdate a asset = false) ∧
    (∀ (a : Addon) (asset : downloadAsset), asset.RelType = GhTag →
      asset.RefSha = a.info.RefSha → hasUpdate a asset = false) := by
  refine ⟨?_, ?_, ?_⟩
  · intro a asset
    simp [hasUpdate]
  · intro a asset h1 h2
    simp [hasUpdate, h1, h2, GhRelease, GhTag]
  · intro a asset h1 h2
    simp [hasUpdate, h1, h2, GhRelease, GhTag]

/-- C5: an archive path is skipped exactly when it matches an exclude
prefix (exclusion winning unconditionally), or include prefixes are
configured and none of them matches; with no include prefixes, everything
not excluded is extracted. -/
theorem C5_inclusion_test :
    (∀ (a : Addon) (path : Str),
      skipUnzip a path = true ↔
        (∃ ex ∈ a.excludeDirs, strHasPref ex path = true) ∨
        (a.includeDirs ≠ [] ∧ ∀ inc ∈ a.includeDirs, strHasPref inc path = false)) ∧
    (∀ (a : Addon) (path : Str), a.includeDirs = [] →
      (skipUnzip a path = false ↔ ∀ ex ∈ a.excludeDirs, strHasPref ex path = false)) := by
  have hchar : ∀ (a : Addon) (path : Str),
      skipUnzip a path =
        ((a.excludeDirs.any fun exclude => strHasPref exclude path) ||
         (!(a.includeDirs.any fun incl => strHasPref incl path) &&
          !a.includeDirs.isEmpty)) := by
    intro a path
    unfold skipUnzip
    cases hE : a.excludeDirs.any fun exclude => strHasPref exclude path <;>
      cases hI : a.includeDirs.any fun incl => strHasPref incl path <;>
        cases a.includeDirs <;> simp
  constructor
  · intro a path
    rw [hchar]
    simp only [Bool.or_eq_true, Bool.and_eq_true, List.any_eq_true,
      Bool.not_eq_true', List.any_eq_false, Bool.not_eq_true,
      List.isEmpty_eq_true]
    constructor
    · rintro (h | ⟨hall, hne⟩)
      · exact Or.inl h
      · refine Or.inr ⟨?_, fun inc hm => ?_⟩
        · intro hnil
          rw [hnil] at hne; simp at hne
        · simpa using hall inc hm
    · rintro (h | ⟨hne, hall⟩)
      · exact Or.inl h
      · refine Or.inr ⟨fun inc hm => by simp [hall inc hm], ?_⟩
        cases hl : a.includeDirs with
        | nil => exact absurd hl hne
        | cons d ds => simp
  · intro a path hnil
    rw [hchar, hnil]
    simp [List.any_eq_false]

/-- C8: a skipped add-on with an available update returns success without
downloading or extracting, and its update info and the filesystem are
untouched. -/
theorem C8_skip_no_write (a : Addon) (env : UpdateEnv) (asset : downloadAsset)
    (hres : env.checkUpdate = .ok asset)
    (hupd : hasUpdate a asset = true)
    (hskip : a.skip = true) :
    update a env = ⟨none, a.info, false, false, []⟩ := by
  simp [update, hres, hupd, hskip]

/-- C9: the directory normalization applied at config load is idempotent
on non-empty entries and always yields a string ending in a slash. -/
theorem C9_normalize_idempotent (dir : Str) (h : dir ≠ []) :
    normalizeDir (normalizeDir dir) = normalizeDir dir ∧
    (normalizeDir dir).getLast? = some '/' := by
  unfold normalizeDir
  by_cases hl : dir.getLast? = some '/'
  · simp [hl]
  · simp [hl, List.getLast?_concat]

/-- C1 (amended): when the manifest names a mainline entry, resolution
returns the pool asset matching that entry's filename AND having zip
content type, with the entry's version, independent of pool ordering
(membership plus uniqueness of the match determine the result); with no
such pool asset, resolution errors instead of falling back. -/
theorem C1_mainline_resolution :
    (∀ (gh : ghTaggedRel) (ri : releaseInfo) (rel : release) (asset : downloadAsset),
      ri.Releases.find? (fun r => r.Metadata.any isMainline) = some rel →
      asset ∈ gh.Assets →
      asset.ContentType = str "application/zip" →
      asset.Name = rel.Filename →
      (∀ b ∈ gh.Assets, isManifestAsset rel.Filename b = true → b = asset) →
      findTaggedRel gh ri = .ok { asset with RelType := GhRelease, Version := rel.Version }) ∧
    (∀ (gh : ghTaggedRel) (ri : releaseInfo) (rel : release),
      ri.Releases.find? (fun r => r.Metadata.any isMainline) = some rel →
      (∀ b ∈ gh.Assets, isManifestAsset rel.Filename b = false) →
      findTaggedRel gh ri = .error (str "no matching asset found from release manifest")) := by
  constructor
  · intro gh ri rel asset hfind hmem hct hname huniq
    have hpa : isManifestAsset rel.Filename asset = true := by
      simp [isManifestAsset, hct, hname]
    have hfa : gh.Assets.find? (isManifestAsset rel.Filename) = some asset :=
      find?_eq_some_of_unique _ gh.Assets asset hmem hpa huniq
    simp only [findTaggedRel, hfind, hfa]
  · intro gh ri rel hfind hnone
    have hfa : gh.Assets.find? (isManifestAsset rel.Filename) = none :=
      List.find?_eq_none.mpr (fun b hb => by simp [hnone b hb])
    simp only [findTaggedRel, hfind, hfa]

/-- C1 counterexample to the claim as stated: the manifest's mainline
entry names `addon.zip`, a pool asset has exactly that filename (but tar
content type), and resolution nevertheless errors — filename equality
alone does not determine the resolved asset. -/
theorem C1_counterexample :
    (findTaggedRel
        ⟨str "v1.tag",
         [⟨str "addon.zip", 0, str "", str "application/tar", 0, str "", str "", 0⟩]⟩
        ⟨[⟨str "v1.0.0", str "addon.zip", [⟨str "mainline", 110002⟩]⟩]⟩).isOk = false ∧
    (⟨str "addon.zip", 0, str "", str "application/tar", 0, str "", str "", 0⟩ :
        downloadAsset).Name = (⟨str "v1.0.0", str "addon.zip",
        [⟨str "mainline", 110002⟩]⟩ : release).Filename ∧
    ((⟨str "v1.0.0", str "addon.zip", [⟨str "mainline", 110002⟩]⟩ :
        release).Metadata.any isMainline) = true := by
  refine ⟨?_, by decide, by decide⟩
  rfl

/-- Concrete release pool for the C1 witness: the repository's own test
case "release.json found". -/
def c1gh : ghTaggedRel :=
  ⟨str "v1.tag",
   [⟨str "aaa.zip", 0, str "https://example.com/aaa.zip", str "application/zip", 0, str "", str "", 0⟩,
    ⟨str "bbb.zip", 0, str "https://example.com/bbb.zip", str "application/zip", 0, str "", str "", 0⟩,
    ⟨str "ccc.zip", 0, str "https://example.com/ccc.zip", str "application/zip", 0, str "", str "", 0⟩]⟩

/-- Concrete manifest for the C1 witness: `ccc.zip` is the mainline
entry. -/
def c1ri : releaseInfo :=
  ⟨[⟨str "v1.0.0", str "aaa.zip", [⟨str "classic", 11501⟩]⟩,
    ⟨str "v2.0.0", str "bbb.zip", []⟩,
    ⟨str "v3.0.0", str "ccc.zip", [⟨str "cata", 40400⟩, ⟨str "mainline", 110002⟩]⟩]⟩

/-- The pool asset the C1 witness resolves. -/
def c1ccc : downloadAsset :=
  ⟨str "ccc.zip", 0, str "https://example.com/ccc.zip", str "application/zip", 0, str "", str "", 0⟩

/-- C1 witness: the mainline manifest entry `ccc.zip` resolves to the
pool's `ccc.zip` with version `v3.0.0`. -/
theorem C1_witness :
    findTaggedRel c1gh c1ri =
      .ok { c1ccc with
            RelType := GhRelease,
            Version := (⟨str "v3.0.0", str "ccc.zip",
              [⟨str "cata", 40400⟩, ⟨str "mainline", 110002⟩]⟩ : release).Version } :=
  C1_mainline_resolution.1 c1gh c1ri
    ⟨str "v3.0.0", str "ccc.zip", [⟨str "cata", 40400⟩, ⟨str "mainline", 110002⟩]⟩
    c1ccc (by decide) (by decide) (by decide) (by decide) (by decide)

/-- C2 (amended): with no mainline manifest entry, resolution returns the
positionally first pool asset with zip content type whose name does not
contain any of the (case-sensitively matched) substrings `classic`, `bc`,
`wrath`, `cata`, using the release tag as version; if every asset fails
the filter, resolution errors. -/
theorem C2_fallback_resolution :
    (∀ (gh : ghTaggedRel) (ri : releaseInfo) (i : Nat) (hi : i < gh.Assets.length),
      ri.Releases.find? (fun r => r.Metadata.any isMainline) = none →
      isFallbackAsset (gh.Assets.get ⟨i, hi⟩) = true →
      (∀ j (hj : j < i), isFallbackAsset (gh.Assets.get ⟨j, Nat.lt_trans hj hi⟩) = false) →
      findTaggedRel gh ri =
        .ok { gh.Assets.get ⟨i, hi⟩ with RelType := GhRelease, Version := gh.TagName }) ∧
    (∀ (gh : ghTaggedRel) (ri : releaseInfo),
      ri.Releases.find? (fun r => r.Metadata.any isMainline) = none →
      (∀ b ∈ gh.Assets, isFallbackAsset b = false) →
      findTaggedRel gh ri = .error (str "no matching asset found from release manifest")) := by
  constructor
  · intro gh ri i hi hnoml hp hmin
    have hfa : gh.Assets.find? isFallbackAsset = some (gh.Assets.get ⟨i, hi⟩) :=
      find?_eq_get_of_first _ gh.Assets i hi hp hmin
    simp only [findTaggedRel, hnoml, hfa]
  · intro gh ri hnoml hnone
    have hfa : gh.Assets.find? isFallbackAsset = none :=
      List.find?_eq_none.mpr (fun b hb => by simp [hnone b hb])
    simp only [findTaggedRel, hnoml, hfa]

/-- C2 counterexample to the claim as stated: the only asset is
`CLASSIC.zip` (zip content type).  Its lowercased name contains
`classic`, so a case-insensitive filter would exclude it and resolution
would have to fail; the code's case-sensitive regex does not match it and
resolution returns it. -/
theorem C2_counterexample :
    findTaggedRel
        ⟨str "v1.tag",
         [⟨str "CLASSIC.zip", 0, str "", str "application/zip", 0, str "", str "", 0⟩]⟩
        ⟨[]⟩ =
      .ok ⟨str "CLASSIC.zip", 0, str "", str "application/zip", 0, str "", str "v1.tag", GhRelease⟩ ∧
    strContains (str "classic") ((str "CLASSIC.zip").map Char.toLower) = true := by
  exact ⟨rfl, by decide⟩

/-- Concrete pool for the C2 witness: the repository's own test case "no
release.json find any modern zip". -/
def c2gh : ghTaggedRel :=
  ⟨str "v1.tag",
   [⟨str "addon-1.0.0-classic.zip", 0, str "", str "application/zip", 0, str "", str "", 0⟩,
    ⟨str "addon-1.0.0-cata.zip", 0, str "", str "application/zip", 0, str "", str "", 0⟩,
    ⟨str "addon-1.0.0.zip", 0, str "", str "application/zip", 0, str "", str "", 0⟩]⟩

/-- C2 witness: with no manifest, the first two (classic/cata) zips are
filtered and the third is resolved with the tag as version. -/
theorem C2_witness :
    findTaggedRel c2gh ⟨[]⟩ =
      .ok { c2gh.Assets.get ⟨2, by decide⟩ with
            RelType := GhRelease,
            Version := c2gh.TagName } :=
  C2_fallback_resolution.1 c2gh ⟨[]⟩ 2 (by decide) (by decide) (by decide)
    (by decide)

/-- C3 (amended): an empty tag-refs list fails; otherwise the last entry
yields an asset named after the trailing ref segment plus `.zip`, with a
download URL synthesized from the add-on name and the full ref, the full
ref as reference identifier, and the asset name — not the full ref — as
version label. -/
theorem C3_tagged_ref_resolution :
    (∀ (a : Addon),
      findTaggedRef a [] = .error (str "did not find valid ref for " ++ a.Name)) ∧
    (∀ (a : Addon) (refs : List ghTaggedRef) (lastRef : ghTaggedRef),
      refs.getLast? = some lastRef →
      findTaggedRef a refs = .ok
        { Name := afterLastSlash lastRef.Ref ++ str ".zip"
          Size := 0
          DownloadUrl := str "https://github.com/" ++ a.Name ++ str "/archive/"
            ++ lastRef.Ref ++ str ".zip"
          ContentType := str "application/zip"
          UpdatedAt := 0
          RefSha := lastRef.Ref
          Version := afterLastSlash lastRef.Ref ++ str ".zip"
          RelType := GhTag }) := by
  constructor
  · intro a
    rfl
  · intro a refs lastRef hlast
    simp only [findTaggedRef, hlast]

/-- Concrete add-on identity for C3. -/
def c3Addon : Addon :=
  ⟨str "kesava-wow/kuispelllistconfig", GhTag, false, [], [],
   str "kesava-wow/", str "kuispelllistconfig", ⟨str "", 0, str "", []⟩, none⟩

/-- C3 counterexample to the claim as stated: for the ref list
`[refs/tags/31]` the resolved version label is `31.zip`, not the full ref
string `refs/tags/31` the claim prescribes (the full ref appears only as
the reference identifier). -/
theorem C3_counterexample :
    ((findTaggedRef c3Addon [⟨str "refs/tags/31", str "abc"⟩]).toOption.map
        (fun a => a.Version)) = some (str "31.zip") ∧
    some (str "31.zip") ≠ some (str "refs/tags/31") ∧
    ((findTaggedRef c3Addon [⟨str "refs/tags/31", str "abc"⟩]).toOption.map
        (fun a => a.RefSha)) = some (str "refs/tags/31") := by
  refine ⟨rfl, by decide, rfl⟩

/-- C3 witness: the spec's end-to-end tag scenario, with the amended
version label. -/
theorem C3_witness :
    findTaggedRef c3Addon [⟨str "refs/tags/31", str "abc"⟩] = .ok
      { Name := afterLastSlash (str "refs/tags/31") ++ str ".zip"
        Size := 0
        DownloadUrl := str "https://github.com/" ++ c3Addon.Name ++ str "/archive/"
          ++ str "refs/tags/31" ++ str ".zip"
        ContentType := str "application/zip"
        UpdatedAt := 0
        RefSha := str "refs/tags/31"
        Version := afterLastSlash (str "refs/tags/31") ++ str ".zip"
        RelType := GhTag } :=
  C3_tagged_ref_resolution.2 c3Addon [⟨str "refs/tags/31", str "abc"⟩]
    ⟨str "refs/tags/31", str "abc"⟩ (by decide)

/-- Every event emitted by the stale-dir removal loop is a remove. -/
theorem removeOldDirs_events_isRemove (env : FsEnv) :
    ∀ (ds : List Str), ∀ e ∈ (removeOldDirs env ds).1, e.isRemove = true
  | [] => by simp [removeOldDirs]
  | d :: ds => by
    intro e he
    simp only [removeOldDirs] at he
    by_cases hf : env.removeFails d
    · simp only [hf, if_true, List.mem_singleton] at he
      simp [he, FsEvent.isRemove]
    · simp only [hf, Bool.false_eq_true, if_false, List.mem_cons] at he
      rcases he with he | he
      · simp [he, FsEvent.isRemove]
      · exact removeOldDirs_events_isRemove env ds e he

/-- When no removal fails, the removal loop deletes every stale dir in
order and reports success. -/
theorem removeOldDirs_ok (env : FsEnv) :
    ∀ (ds : List Str), (∀ d ∈ ds, env.removeFails d = false) →
      removeOldDirs env ds = (ds.map FsEvent.removeAll, false)
  | [] => by simp [removeOldDirs]
  | d :: ds => by
    intro h
    have hd : env.removeFails d = false := h d (List.mem_cons_self d ds)
    have ih := removeOldDirs_ok env ds (fun x hx => h x (List.mem_cons_of_mem d hx))
    simp [removeOldDirs, hd, ih]

/-- When some stale dir fails to delete, the removal loop reports
failure. -/
theorem removeOldDirs_fail (env : FsEnv) :
    ∀ (ds : List Str), (∃ d ∈ ds, env.removeFails d = true) →
      (removeOldDirs env ds).2 = true
  | [] => by simp
  | d :: ds => by
    rintro ⟨x, hx, hfx⟩
    by_cases hd : env.removeFails d
    · simp [removeOldDirs, hd]
    · rcases List.mem_cons.mp hx with h | h
      · exact absurd (h ▸ hfx) hd
      · have ih := removeOldDirs_fail env ds ⟨x, h, hfx⟩
        simp [removeOldDirs, hd, ih]

/-- Every event emitted by the directory-creation pass is a mkdir. -/
theorem createDirs_events_mkdir (a : Addon) (env : FsEnv) (ad : Str) :
    ∀ (fs : List zipFile) (dirs : List Str),
      ∀ e ∈ (createDirs a env ad dirs fs).events, ∃ p, e = FsEvent.mkdirAll p
  | [], dirs => by simp [createDirs]
  | f :: fs, dirs => by
    intro e he
    simp only [createDirs] at he
    by_cases hskip : skipUnzip a f.Name
    · rw [if_pos hskip] at he
      exact createDirs_events_mkdir a env ad fs dirs e he
    · rw [if_neg hskip] at he
      by_cases hdir : f.isDir
      · simp only [hdir, if_true] at he
        by_cases hmk : env.mkdirFails (ad ++ f.Name)
        · simp only [hmk, if_true, List.mem_singleton] at he
          exact ⟨_, he⟩
        · simp only [hmk, Bool.false_eq_true, if_false, List.mem_cons] at he
          rcases he with he | he
          · exact ⟨_, he⟩
          · exact createDirs_events_mkdir a env ad fs _ e he
      · simp only [hdir, Bool.false_eq_true, if_false] at he
        exact createDirs_events_mkdir a env ad fs dirs e he

/-- Every event emitted by the file-extraction pass is a file write. -/
theorem writeFiles_events_write (env : FsEnv) (ad : Str) :
    ∀ (fs : List zipFile), ∀ e ∈ (writeFiles env ad fs).1, ∃ p, e = FsEvent.writeFile p
  | [] => by simp [writeFiles]
  | f :: fs => by
    intro e he
    simp only [writeFiles] at he
    by_cases hw : env.writeFails (ad ++ f.Name)
    · simp only [hw, if_true, List.mem_singleton] at he
      exact ⟨_, he⟩
    · simp only [hw, Bool.false_eq_true, if_false, List.mem_cons] at he
      rcases he with he | he
      · exact ⟨_, he⟩
      · exact writeFiles_events_write env ad fs e he

/-- `extractZip` never touches the version, timestamp, or ref-sha fields
of the update info. -/
theorem extractZip_preserves_fields (a : Addon) (env : FsEnv) (d : ZipData) :
    (extractZip a env d).info.Version = a.info.Version ∧
    (extractZip a env d).info.UpdatedOn = a.info.UpdatedOn ∧
    (extractZip a env d).info.RefSha = a.info.RefSha := by
  cases d with
  | invalid => simp [extractZip]
  | archive files =>
    simp only [extractZip]
    by_cases hrem : (removeOldDirs env a.info.ExtractedDirs).2
    · simp [hrem]
    · by_cases hcd : (createDirs a env (mkAddonsDir a) [] files).failed
      · simp [hrem, hcd]
      · simp [hrem, hcd]

/-- A run that never reaches extraction leaves the whole update info
untouched, whatever its outcome. -/
theorem update_no_extract_no_change (a : Addon) (env : UpdateEnv)
    (h : (update a env).extracted = false) : (update a env).info = a.info := by
  cases henv : env.checkUpdate with
  | error e => simp [update, henv]
  | ok asset =>
    by_cases hu : hasUpdate a asset
    · by_cases hs : a.skip
      · simp [update, henv, hu, hs]
      · by_cases hd : env.downloadOk
        · exfalso
          revert h
          simp only [update, henv, hu, hs, hd]
          cases hex : (extractZip a env.fs env.zipData).err <;> simp [hex]
        · simp [update, henv, hu, hs, hd]
    · simp [update, henv, hu]

/-- A run that reaches extraction also passed the download step. -/
theorem update_extract_downloaded (a : Addon) (env : UpdateEnv)
    (h : (update a env).extracted = true) : (update a env).downloaded = true := by
  cases henv : env.checkUpdate with
  | error e => simp [update, henv] at h
  | ok asset =>
    by_cases hu : hasUpdate a asset
    · by_cases hs : a.skip
      · simp [update, henv, hu, hs] at h
      · by_cases hd : env.downloadOk
        · simp only [update, henv, hu, hs, hd]
          cases hex : (extractZip a env.fs env.zipData).err <;> simp [hex]
        · simp [update, henv, hu, hs, hd] at h
    · simp [update, henv, hu] at h

/-- C6 (amended): a failed run never changes the stored version,
timestamp, or ref sha; a run failing before extraction leaves the whole
update info untouched; and any change to the update info implies the run
reached download and extraction.  (A failed extraction can still rewrite
`extractedDirs`, see the counterexample.) -/
theorem C6_failed_run_state :
    (∀ (a : Addon) (env : UpdateEnv), (update a env).err.isSome = true →
      (update a env).info.Version = a.info.Version ∧
      (update a env).info.UpdatedOn = a.info.UpdatedOn ∧
      (update a env).info.RefSha = a.info.RefSha) ∧
    (∀ (a : Addon) (env : UpdateEnv), (update a env).err.isSome = true →
      (update a env).extracted = false → (update a env).info = a.info) ∧
    (∀ (a : Addon) (env : UpdateEnv), (update a env).info ≠ a.info →
      (update a env).downloaded = true ∧ (update a env).extracted = true) := by
  refine ⟨?_, ?_, ?_⟩
  · intro a env herr
    cases henv : env.checkUpdate with
    | error e => simp [update, henv]
    | ok asset =>
      by_cases hu : hasUpdate a asset
      · by_cases hs : a.skip
        · simp [update, henv, hu, hs]
        · by_cases hd : env.downloadOk
          · simp only [update, henv, hu, hs, hd]
            cases hex : (extractZip a env.fs env.zipData).err with
            | none =>
              exfalso
              revert herr
              simp [update, henv, hu, hs, hd, hex]
            | some e =>
              simpa [hex] using extractZip_preserves_fields a env.fs env.zipData
          · simp [update, henv, hu, hs, hd]
      · simp [update, henv, hu]
  · intro a env _ hext
    exact update_no_extract_no_change a env hext
  · intro a env hchange
    have hext : (update a env).extracted = true := by
      by_contra hc
      rw [Bool.not_eq_true] at hc
      exact hchange (update_no_extract_no_change a env hc)
    exact ⟨update_extract_downloaded a env hext, hext⟩

/-- Concrete add-on for the C6 counterexample and witness: one stale
extracted dir `old`. -/
def c6Addon : Addon :=
  ⟨str "p/a", GhRelease, false, [], [], str "p/", str "a",
   ⟨str "v0", 0, str "", [str "old"]⟩, none⟩

/-- C6 counterexample environment: resolution and download succeed, the
archive holds dir `new/` and file `new/a.lua`, and every file write
fails. -/
def c6Env : UpdateEnv :=
  ⟨.ok ⟨str "new.zip", 0, str "u", str "application/zip", 1, str "", str "v1", GhRelease⟩,
   true, ⟨fun _ => false, fun _ => false, fun _ => true⟩,
   .archive [⟨str "new/", true⟩, ⟨str "new/a.lua", false⟩]⟩

/-- C6 counterexample to the claim as stated: this run fails (at the
extraction step), yet its persisted `extractedDirs` is no longer what it
was before the run — the stale list `[old]` has been replaced by
`[new]`. -/
theorem C6_counterexample :
    (update c6Addon c6Env).err.isSome = true ∧
    (update c6Addon c6Env).info.ExtractedDirs ≠ c6Addon.info.ExtractedDirs := by
  refine ⟨rfl, by decide⟩

/-- C6 witness environment: resolution itself fails. -/
def c6wEnv : UpdateEnv :=
  ⟨.error (str "404"), true,
   ⟨fun _ => false, fun _ => false, fun _ => false⟩, .invalid⟩

/-- C6 witness: a run failing at resolve leaves the update info exactly
as it was. -/
theorem C6_witness : (update c6Addon c6wEnv).info = c6Addon.info :=
  C6_failed_run_state.2.1 c6Addon c6wEnv rfl rfl

/-- C7: in every extraction of a valid archive, all recorded stale dirs
are deleted strictly before any directory creation or file write; when
every deletion succeeds each stale dir is in fact deleted; and a failing
deletion aborts the extraction with an error having performed no
creation or write at all. -/
theorem C7_stale_removed_before_writes :
    ∀ (a : Addon) (env : FsEnv) (files : List zipFile),
      (∃ pre post, (extractZip a env (.archive files)).events = pre ++ post ∧
        (∀ e ∈ pre, e.isRemove = true) ∧ (∀ e ∈ post, e.isRemove = false)) ∧
      ((∀ d ∈ a.info.ExtractedDirs, env.removeFails d = false) →
        ∀ d ∈ a.info.ExtractedDirs,
          FsEvent.removeAll d ∈ (extractZip a env (.archive files)).events) ∧
      ((∃ d ∈ a.info.ExtractedDirs, env.removeFails d = true) →
        (extractZip a env (.archive files)).err.isSome = true ∧
        ∀ e ∈ (extractZip a env (.archive files)).events, e.isRemove = true) := by
  intro a env files
  have hrm : ∀ e ∈ (removeOldDirs env a.info.ExtractedDirs).1, e.isRemove = true :=
    removeOldDirs_events_isRemove env a.info.ExtractedDirs
  have hcd : ∀ e ∈ (createDirs a env (mkAddonsDir a) [] files).events,
      e.isRemove = false := by
    intro e he
    obtain ⟨p, hp⟩ := createDirs_events_mkdir a env (mkAddonsDir a) files [] e he
    simp [hp, FsEvent.isRemove]
  have hwr : ∀ e ∈ (writeFiles env (mkAddonsDir a)
      (createDirs a env (mkAddonsDir a) [] files).extractFiles).1,
      e.isRemove = false := by
    intro e he
    obtain ⟨p, hp⟩ := writeFiles_events_write env (mkAddonsDir a) _ e he
    simp [hp, FsEvent.isRemove]
  by_cases hrem : (removeOldDirs env a.info.ExtractedDirs).2
  · refine ⟨⟨(removeOldDirs env a.info.ExtractedDirs).1, [],
      by simp [extractZip, hrem], hrm, by simp⟩, ?_, ?_⟩
    · intro hok
      exact absurd (by rw [removeOldDirs_ok env _ hok] : (removeOldDirs env
        a.info.ExtractedDirs).2 = false) (by simp [hrem])
    · intro _
      refine ⟨by simp [extractZip, hrem], ?_⟩
      simpa [extractZip, hrem] using hrm
  · by_cases hfl : (createDirs a env (mkAddonsDir a) [] files).failed
    · refine ⟨⟨(removeOldDirs env a.info.ExtractedDirs).1,
        (createDirs a env (mkAddonsDir a) [] files).events,
        by simp [extractZip, hrem, hfl], hrm, hcd⟩, ?_, ?_⟩
      · intro hok d hd
        simp only [extractZip, hrem, hfl]
        simp only [removeOldDirs_ok env _ hok, Bool.false_eq_true, if_false,
          if_true, List.mem_append, List.mem_map]
        exact Or.inl ⟨d, hd, rfl⟩
      · rintro ⟨d, hd, hfd⟩
        exact absurd (removeOldDirs_fail env _ ⟨d, hd, hfd⟩) (by simp [hrem])
    · refine ⟨⟨(removeOldDirs env a.info.ExtractedDirs).1,
        (createDirs a env (mkAddonsDir a) [] files).events ++
          (writeFiles env (mkAddonsDir a)
            (createDirs a env (mkAddonsDir a) [] files).extractFiles).1,
        by simp [extractZip, hrem, hfl], hrm, ?_⟩, ?_, ?_⟩
      · intro e he
        rcases List.mem_append.mp he with h | h
        · exact hcd e h
        · exact hwr e h
      · intro hok d hd
        simp only [extractZip, hrem, hfl]
        simp only [removeOldDirs_ok env _ hok, Bool.false_eq_true, if_false,
          if_true, List.mem_append, List.mem_map, List.append_assoc]
        exact Or.inl ⟨d, hd, rfl⟩
      · rintro ⟨d, hd, hfd⟩
        exact absurd (removeOldDirs_fail env _ ⟨d, hd, hfd⟩) (by simp [hrem])

/-- Concrete add-on for the C7 witness: one stale extracted dir `old`. -/
def c7addon : Addon :=
  ⟨str "p/b", GhRelease, false, [], [], str "p/", str "b",
   ⟨str "v0", 0, str "", [str "old"]⟩, none⟩

/-- C7 witness environment where every filesystem call succeeds. -/
def c7envOk : FsEnv := ⟨fun _ => false, fun _ => false, fun _ => false⟩

/-- C7 witness environment where every recursive delete fails. -/
def c7envBad : FsEnv := ⟨fun _ => true, fun _ => false, fun _ => false⟩

/-- C7 witness archive: one directory and one file. -/
def c7files : List zipFile := [⟨str "new/", true⟩, ⟨str "new/a.lua", false⟩]

/-- C7 witness: on a healthy filesystem the stale dir `old` is deleted,
and when deletion fails the extraction errors out. -/
theorem C7_witness :
    FsEvent.removeAll (str "old") ∈
      (extractZip c7addon c7envOk (.archive c7files)).events ∧
    (extractZip c7addon c7envBad (.archive c7files)).err.isSome = true :=
  ⟨(C7_stale_removed_before_writes c7addon c7envOk c7files).2.1 (by decide)
      (str "old") (by decide),
   ((C7_stale_removed_before_writes c7addon c7envBad c7files).2.2
      ⟨str "old", by decide, rfl⟩).1⟩

/-- C10: a leading dash on the configured name is stripped to form the
canonical name used for loading, update-info lookup, and project/short
name derivation, with the skip flag set from the dash; duplicate
detection also keys on the stripped name. -/
theorem C10_dash_prefix_skip :
    (∀ c : AddonCfg, validateErrs [] [c] = false →
      loadCfg [c] = .ok [loadAddon c] ∧
      (loadAddon c).Name = stripDash c.NameCfg ∧
      (loadAddon c).updateInfoKey = stripDash c.NameCfg ∧
      (loadAddon c).projName ++ (loadAddon c).shortName = stripDash c.NameCfg ∧
      (loadAddon c).skip = (c.NameCfg.head? == some '-')) ∧
    (∀ c1 c2 : AddonCfg, stripDash c1.NameCfg = stripDash c2.NameCfg →
      validateErrs [] [c1, c2] = true) := by
  constructor
  · intro c h
    refine ⟨by simp [loadCfg, h], rfl, rfl, ?_, rfl⟩
    simp only [loadAddon]
    exact List.take_append_drop _ _
  · intro c1 c2 h
    have hdup : addonErrs [stripDash c1.NameCfg] c2 = true := by
      simp only [addonErrs, Bool.or_eq_true]
      left
      rw [h]
      simp [List.contains]
    simp [validateErrs, hdup]

/-- Concrete config entry for the C10 witness: dashed name, mixed dir
spec (the spec's end-to-end scenario). -/
def c10cfg : AddonCfg :=
  ⟨str "-Project/Addon", [str "dir1", str "-dir2", str "dir3/"], 0⟩

/-- Undashed twin of the C10 witness entry. -/
def c10cfg2 : AddonCfg := ⟨str "Project/Addon", [], 0⟩

/-- C10 witness: loading `-Project/Addon` succeeds with canonical name
`Project/Addon` and skip set, and a config listing both the dashed and
the undashed spelling is rejected as a duplicate. -/
theorem C10_witness :
    (loadCfg [c10cfg] = .ok [loadAddon c10cfg] ∧
     (loadAddon c10cfg).Name = stripDash c10cfg.NameCfg ∧
     (loadAddon c10cfg).updateInfoKey = stripDash c10cfg.NameCfg ∧
     (loadAddon c10cfg).projName ++ (loadAddon c10cfg).shortName =
       stripDash c10cfg.NameCfg ∧
     (loadAddon c10cfg).skip = (c10cfg.NameCfg.head? == some '-')) ∧
    validateErrs [] [c10cfg, c10cfg2] = true :=
  ⟨C10_dash_prefix_skip.1 c10cfg (by decide),
   C10_dash_prefix_skip.2 c10cfg c10cfg2 (by decide)⟩

/-- Concrete add-on for the C4 witness. -/
def c4addon : Addon :=
  ⟨str "p/c", GhRelease, false, [], [], str "p/", str "c",
   ⟨str "v", 5, str "sha", []⟩, none⟩

/-- Release-kind asset whose timestamp equals the stored one. -/
def c4relAsset : downloadAsset :=
  ⟨str "x.zip", 0, str "", str "application/zip", 5, str "", str "", GhRelease⟩

/-- Tag-kind asset whose ref sha equals the stored one. -/
def c4tagAsset : downloadAsset :=
  ⟨str "x.zip", 0, str "", str "application/zip", 0, str "sha", str "", GhTag⟩

/-- C4 witness: an equal timestamp and an identical ref sha both report
no update. -/
theorem C4_witness :
    hasUpdate c4addon c4relAsset = false ∧ hasUpdate c4addon c4tagAsset = false :=
  ⟨C4_update_detection.2.1 c4addon c4relAsset rfl rfl,
   C4_update_detection.2.2 c4addon c4tagAsset rfl rfl⟩

/-- Concrete add-on for the C5 witness: no include dirs, one exclude. -/
def c5addon : Addon :=
  ⟨str "p/d", GhRelease, false, [str "dir2/"], [], str "p/", str "d",
   ⟨str "", 0, str "", []⟩, none⟩

/-- C5 witness: with an empty include set, a path is extracted exactly
when no exclude prefix matches it. -/
theorem C5_witness :
    skipUnzip c5addon (str "dir1/a.lua") = false ↔
      ∀ ex ∈ c5addon.excludeDirs, strHasPref ex (str "dir1/a.lua") = false :=
  C5_inclusion_test.2 c5addon (str "dir1/a.lua") rfl

/-- Concrete skipped add-on for the C8 witness. -/
def c8addon : Addon :=
  ⟨str "p/e", GhRelease, true, [], [], str "p/", str "e",
   ⟨str "v0", 0, str "", [str "old"]⟩, none⟩

/-- Asset strictly newer than the stored state. -/
def c8asset : downloadAsset :=
  ⟨str "new.zip", 0, str "u", str "application/zip", 1, str "", str "v1", GhRelease⟩

/-- Environment for the C8 witness: resolution yields the new asset. -/
def c8env : UpdateEnv :=
  ⟨.ok c8asset, true, ⟨fun _ => false, fun _ => false, fun _ => false⟩, .archive []⟩

/-- C8 witness: the skipped add-on's run succeeds untouched despite the
available update. -/
theorem C8_witness :
    update c8addon c8env = ⟨none, c8addon.info, false, false, []⟩ :=
  C8_skip_no_write c8addon c8env c8asset rfl (by decide) rfl

/-- C9 witness: normalizing `dir1` twice equals normalizing it once, and
the result ends in a slash. -/
theorem C9_witness :
    normalizeDir (normalizeDir (str "dir1")) = normalizeDir (str "dir1") ∧
    (normalizeDir (str "dir1")).getLast? = some '/' :=
  C9_normalize_idempotent (str "dir1") (by decide)

end Wau
